import Mathlib

/-!
Shallow embedding of `src/fs.c`, a FUSE-based in-memory filesystem with a
flat root namespace.  The C globals `dir_list`/`curr_dir_idx`,
`files_list`/`curr_file_idx` and `files_content`/`curr_file_content_idx`
are modelled as three lists holding exactly the used entries (the cursor
`curr_*_idx` is the list length minus one; slots beyond the cursor are
never read by the C code).  A file content buffer (`char[256]`) is modelled
as a total function from byte index to byte value; C's static storage
zero-initialisation makes a fresh slot the all-zero function.  Machine
integers become `Nat` (the FUSE bridge guarantees non-negative `size` and
`offset`); `Nat` subtraction matches C's `max(x - y, 0)` where the code
guards on sign.  Fallible handlers return `Option` (`none` = `-ENOENT`).
-/

namespace Fs

/-- A file or directory name / a path, as a list of characters. -/
abbrev EntryName := List Char

/-- A 256-byte content buffer, index to byte value. -/
abbrev Buffer := Nat → Nat

/-- A freshly allocated content slot: all zero bytes (C static storage). -/
def zeroBuf : Buffer := fun _ => 0

/-- The in-memory filesystem state: the three registries of `fs.c`
(`dir_list`, `files_list`, `files_content`), in insertion order. -/
structure FSState where
  dir_list : List EntryName
  files_list : List EntryName
  files_content : List Buffer

/-- The state at mount time: all three registries empty
(`curr_dir_idx = curr_file_idx = curr_file_content_idx = -1`). -/
def initState : FSState := ⟨[], [], []⟩

/-- C `strlen` on a content buffer: the index of the first zero byte,
scanning indices `0..255` (`256` if none; the reachable-state invariant
guarantees a zero byte at index `≤ 255`, so the scan never leaves the
buffer in the C code). -/
def strlen (b : Buffer) : Nat :=
  (List.range 256).findIdx (fun i => b i == 0)

/-- `memset(b + start, 0, len)`: zero the bytes at indices
`start ≤ i < start + len`. -/
def memset_range (b : Buffer) (start len : Nat) : Buffer :=
  fun i => if start ≤ i ∧ i < start + len then 0 else b i

/-- `memcpy(b + off, data, n)`: copy the first `n` bytes of `data` to
indices `off ≤ i < off + n`. -/
def memcpy_at (b : Buffer) (off : Nat) (data : List Nat) (n : Nat) : Buffer :=
  fun i => if off ≤ i ∧ i < off + n then data.getD (i - off) 0 else b i

/-- `b[i] = v`: single byte store. -/
def setByte (b : Buffer) (i v : Nat) : Buffer :=
  fun j => if j = i then v else b j

/-- The linear scan shared by `is_dir`, `is_file` and `get_file_index`:
first index whose entry equals `p` (`strcmp == 0`), `none` if no match. -/
def find_name : List EntryName → EntryName → Option Nat
  | [], _ => none
  | f :: rest, p => if f = p then some 0 else (find_name rest p).map (· + 1)

/-- `add_dir`: append a directory name (truncated to 255 chars by
`strncpy`) unless `curr_dir_idx >= 255`, i.e. the registry already holds
256 entries, in which case the call is silently a no-op. -/
def add_dir (s : FSState) (dir_name : EntryName) : FSState :=
  if s.dir_list.length ≥ 256 then s
  else { s with dir_list := s.dir_list ++ [dir_name.take 255] }

/-- `add_file`: append a file name (truncated to 255 chars) and an empty
content slot, unless `curr_file_idx >= 255`; at capacity neither registry
grows. -/
def add_file (s : FSState) (filename : EntryName) : FSState :=
  if s.files_list.length ≥ 256 then s
  else { s with
    files_list := s.files_list ++ [filename.take 255]
    files_content := s.files_content ++ [zeroBuf] }

/-- `is_dir`: skip the leading separator, then linear scan of `dir_list`
for an exact match. -/
def is_dir (s : FSState) (path : EntryName) : Bool :=
  (find_name s.dir_list (path.drop 1)).isSome

/-- `is_file`: skip the leading separator, then linear scan of
`files_list` for an exact match. -/
def is_file (s : FSState) (path : EntryName) : Bool :=
  (find_name s.files_list (path.drop 1)).isSome

/-- `get_file_index`: skip the leading separator and return the first
matching index in `files_list` (`none` models the C return value `-1`). -/
def get_file_index (s : FSState) (path : EntryName) : Option Nat :=
  find_name s.files_list (path.drop 1)

/-- File type reported by `do_getattr` (`S_IFDIR` / `S_IFREG`). -/
inductive FileKind where
  | directory
  | regular
deriving DecidableEq

/-- The attributes `do_getattr` fills in that depend on the filesystem
state: type, permission bits, hard-link count and size.  (`st_uid`,
`st_gid` and the timestamps are taken from the environment --
`getuid()`, `getgid()`, `time(NULL)` -- and carry no filesystem
information, so they are not modelled.) -/
structure Attr where
  kind : FileKind
  perm : Nat
  nlink : Nat
  size : Nat
deriving DecidableEq

/-- `do_getattr`: root or a known directory gets directory attributes
(mode `S_IFDIR | 0755`, two links); a known file gets regular-file
attributes (mode `S_IFREG | 0644`, one link, size = `strlen` of its
content); anything else is `-ENOENT` (`none`). -/
def do_getattr (s : FSState) (path : EntryName) : Option Attr :=
  if path = ['/'] ∨ is_dir s path = true then
    some { kind := .directory, perm := 0o755, nlink := 2, size := 0 }
  else if is_file s path = true then
    match get_file_index s path with
    | some file_idx =>
      some { kind := .regular, perm := 0o644, nlink := 1,
             size := strlen (s.files_content.getD file_idx zeroBuf) }
    | none =>
      some { kind := .regular, perm := 0o644, nlink := 1, size := 0 }
  else
    none

/-- `do_readdir`: the `filler` callback appends one name to the reply
buffer per call; "." and ".." always come first, and only for the root
path the two registry loops run, directories then files, in insertion
order. -/
def do_readdir (s : FSState) (path : EntryName) : List EntryName :=
  let buf : List EntryName := [['.'], ['.', '.']]
  if path = ['/'] then
    let buf := s.dir_list.foldl (fun b d => b ++ [d]) buf
    s.files_list.foldl (fun b f => b ++ [f]) buf
  else
    buf

/-- `do_read`: resolve the path to a file index (`-ENOENT` = `none` on
failure); at or past the content length return 0 bytes; otherwise copy
`min(len - offset, size)` bytes starting at `offset` into the caller's
buffer (here: return them as a list). -/
def do_read (s : FSState) (path : EntryName) (size offset : Nat) :
    Option (List Nat) :=
  match get_file_index s path with
  | none => none
  | some file_idx =>
    let content := s.files_content.getD file_idx zeroBuf
    let len := strlen content
    if offset ≥ len then
      some []
    else
      let bytes_to_read := len - offset
      let bytes_to_read := if bytes_to_read > size then size else bytes_to_read
      some ((List.range bytes_to_read).map (fun i => content (offset + i)))

/-- `do_mkdir`: strip the leading separator, `add_dir`, and always return
`0` (success), even when `add_dir` silently dropped the entry. -/
def do_mkdir (s : FSState) (path : EntryName) : FSState × Int :=
  (add_dir s (path.drop 1), 0)

/-- `do_mknod`: strip the leading separator, `add_file`, and always
return `0` (success), even when `add_file` silently dropped the entry. -/
def do_mknod (s : FSState) (path : EntryName) : FSState × Int :=
  (add_file s (path.drop 1), 0)

/-- `do_write`: resolve the path (`none` = `-ENOENT`); cap
`new_len = offset + size` at 255; if `offset` is past the current
`strlen`, zero-fill the gap (`memset`); if `bytes_to_write =
new_len - offset` is positive, copy that many bytes of `data` at
`offset` and place a terminator at `new_len`; return the positive byte
count or 0.  (In C the `memset` runs even when nothing is copied, so the
buffer update in the zero-count branch keeps the zero-filled gap.) -/
def do_write (s : FSState) (path : EntryName) (data : List Nat)
    (offset : Nat) : FSState × Option Nat :=
  match get_file_index s path with
  | none => (s, none)
  | some file_idx =>
    let content := s.files_content.getD file_idx zeroBuf
    let current_len := strlen content
    let new_len := min (offset + data.length) 255
    let content := if offset > current_len then
        memset_range content current_len (offset - current_len)
      else content
    let bytes_to_write := new_len - offset
    if 0 < bytes_to_write then
      let content := setByte (memcpy_at content offset data bytes_to_write)
        new_len 0
      ({ s with files_content := s.files_content.set file_idx content },
       some bytes_to_write)
    else
      ({ s with files_content := s.files_content.set file_idx content },
       some 0)

/-- The byte indices of the content buffer that `do_write` stores to on a
resolved file, given the current `strlen`, the write offset and the data
size: the `memset` zero-fill of the gap, the `memcpy` of the data, and
the terminator.  (Transcribed from the same lines as `do_write`; an index
`≥ 256` is an out-of-bounds store into `char[256]`.) -/
def do_write_accesses (current_len offset size : Nat) : List Nat :=
  let new_len := min (offset + size) 255
  (if offset > current_len then
      List.range' current_len (offset - current_len)
    else [])
  ++ (if 0 < new_len - offset then
        List.range' offset (new_len - offset) ++ [new_len]
      else [])

/-- States reachable from the mount-time state by the three mutating
handlers (`do_getattr`, `do_readdir` and `do_read` do not change the
registries). -/
inductive Reachable : FSState → Prop where
  | init : Reachable initState
  | mkdir (s : FSState) (p : EntryName) :
      Reachable s → Reachable (do_mkdir s p).1
  | mknod (s : FSState) (p : EntryName) :
      Reachable s → Reachable (do_mknod s p).1
  | write (s : FSState) (p : EntryName) (data : List Nat) (off : Nat) :
      Reachable s → Reachable (do_write s p data off).1

end Fs

namespace Fs

/-! Helper lemmas about the scan, `strlen`, list access and reachable
states. -/

/-- A successful scan returns an index inside the registry. -/
theorem find_name_lt {l : List EntryName} {p : EntryName} {i : Nat}
    (h : find_name l p = some i) : i < l.length := by
  induction l generalizing i with
  | nil => simp [find_name] at h
  | cons f rest ih =>
    simp only [find_name] at h
    split at h
    · cases h; simp
    · obtain ⟨j, hj, rfl⟩ := Option.map_eq_some'.mp h
      have := ih hj
      simp only [List.length_cons]
      omega

/-- Appending a fresh entry to a registry with no match makes the scan
find it at the old length. -/
theorem find_name_append_self {l : List EntryName} {p : EntryName}
    (h : find_name l p = none) : find_name (l ++ [p]) p = some l.length := by
  induction l with
  | nil => simp [find_name]
  | cons f rest ih =>
    simp only [find_name] at h ⊢
    split at h
    · exact absurd h (by simp)
    · have h' : find_name rest p = none := Option.map_eq_none'.mp h
      split
      · next hf => exact absurd hf (by assumption)
      · simp only [List.append_eq, ih h', Option.map_some']
        simp

/-- `strlen` characterisation: first zero byte at index `n ≤ 255`. -/
theorem strlen_eq {b : Buffer} {n : Nat} (hn : n ≤ 255) (h0 : b n = 0)
    (hlt : ∀ j, j < n → b j ≠ 0) : strlen b = n := by
  have hl : n < (List.range 256).length := by
    simp only [List.length_range]; omega
  rw [strlen, List.findIdx_eq hl]
  refine ⟨by simp [h0], fun j hj => ?_⟩
  simp only [List.getElem_range, beq_eq_false_iff_ne, ne_eq]
  exact hlt j hj

/-- A buffer with a zero byte at some index `≤ 255` has `strlen ≤ 255`. -/
theorem strlen_le {b : Buffer} (h : ∃ i, i ≤ 255 ∧ b i = 0) :
    strlen b ≤ 255 := by
  obtain ⟨i, hi, h0⟩ := h
  have hex : ∃ x ∈ List.range 256, (fun i => b i == 0) x =
      true := ⟨i, by simp only [List.mem_range]; omega, by simp [h0]⟩
  have hlt := List.findIdx_lt_length_of_exists hex
  simp only [List.length_range] at hlt
  rw [strlen]
  omega

/-- `getD` inside the bounds is `getElem`. -/
theorem getD_of_lt {α : Type} (l : List α) (n : Nat) (d : α)
    (h : n < l.length) : l.getD n d = l[n] := by
  simp [List.getD_eq_getElem?_getD, List.getElem?_eq_getElem h]

/-- `getD` at the position of a freshly appended element. -/
theorem getD_append_length {α : Type} (l : List α) (x : α) (d : α) :
    (l ++ [x]).getD l.length d = x := by
  rw [getD_of_lt _ _ _ (by simp)]
  simp

/-- Reading an updated slot back. -/
theorem getD_set_self {α : Type} (l : List α) (n : Nat) (x d : α)
    (h : n < l.length) : (l.set n x).getD n d = x := by
  rw [getD_of_lt _ _ _ (by simpa using h)]
  exact List.getElem_set_self (by simpa using h)

/-- Mapping positional lookup over `range` rebuilds the list. -/
theorem map_getD_range (l : List Nat) :
    (List.range l.length).map (fun j => l.getD j 0) = l := by
  apply List.ext_getElem (by simp)
  intro i h1 h2
  simp only [List.getElem_map, List.getElem_range]
  rw [getD_of_lt _ _ _ h2]

/-- The `filler`-style fold appends the scanned registry to the reply
buffer. -/
theorem foldl_push {α : Type} (l : List α) (init : List α) :
    l.foldl (fun b x => b ++ [x]) init = init ++ l := by
  induction l generalizing init with
  | nil => simp
  | cons x rest ih =>
    simp only [List.foldl_cons, ih, List.append_assoc, List.singleton_append]

/-- The state invariant maintained by every handler: both registries are
within capacity, names and contents are index-aligned, and every content
buffer is properly terminated (a zero byte at index `≤ 255`). -/
def GoodState (s : FSState) : Prop :=
  s.dir_list.length ≤ 256 ∧ s.files_list.length ≤ 256 ∧
  s.files_list.length = s.files_content.length ∧
  ∀ b ∈ s.files_content, ∃ i, i ≤ 255 ∧ b i = 0

/-- Every reachable state satisfies the invariant. -/
theorem reachable_good {s : FSState} (h : Reachable s) : GoodState s := by
  induction h with
  | init =>
    refine ⟨by simp [initState], by simp [initState], by simp [initState],
      ?_⟩
    simp [initState]
  | mkdir s p _ ih =>
    obtain ⟨hd, hf, hfc, hz⟩ := ih
    simp only [do_mkdir, add_dir]
    split
    · exact ⟨hd, hf, hfc, hz⟩
    · next hlt =>
      refine ⟨?_, hf, hfc, hz⟩
      simp only [List.length_append, List.length_cons, List.length_nil]
      omega
  | mknod s p _ ih =>
    obtain ⟨hd, hf, hfc, hz⟩ := ih
    simp only [do_mknod, add_file]
    split
    · exact ⟨hd, hf, hfc, hz⟩
    · next hlt =>
      refine ⟨hd, ?_, ?_, ?_⟩
      · simp only [List.length_append, List.length_cons, List.length_nil]
        omega
      · simp only [List.length_append, List.length_cons, List.length_nil,
          hfc]
      · intro b hb
        rcases List.mem_append.mp hb with hb | hb
        · exact hz b hb
        · have : b = zeroBuf := by simpa using hb
          exact ⟨0, by omega, by simp [this, zeroBuf]⟩
  | write s p data off _ ih =>
    obtain ⟨hd, hf, hfc, hz⟩ := ih
    rcases hidx : get_file_index s p with _ | file_idx
    · simpa [do_write, hidx] using ⟨hd, hf, hfc, hz⟩
    · have hidx_lt : file_idx < s.files_content.length :=
        hfc ▸ find_name_lt hidx
      have hcontent : s.files_content.getD file_idx zeroBuf ∈
          s.files_content := by
        rw [getD_of_lt _ _ _ hidx_lt]
        exact List.getElem_mem hidx_lt
      have hslen : strlen (s.files_content.getD file_idx zeroBuf) ≤ 255 :=
        strlen_le (hz _ hcontent)
      simp only [do_write, hidx]
      have hset : ∀ c : Buffer, (∃ i, i ≤ 255 ∧ c i = 0) →
          GoodState { s with files_content :=
            s.files_content.set file_idx c } := by
        intro c hc
        refine ⟨hd, hf, by simpa using hfc, ?_⟩
        intro b hb
        rcases List.mem_or_eq_of_mem_set hb with hb | rfl
        · exact hz b hb
        · exact hc
      split
      · next hpos =>
        apply hset
        refine ⟨min (off + data.length) 255, by omega, ?_⟩
        simp [setByte]
      · next hpos =>
        apply hset
        split
        · next hgap =>
          refine ⟨strlen (s.files_content.getD file_idx zeroBuf),
            hslen, ?_⟩
          simp only [memset_range]
          exact if_pos ⟨le_refl _, by omega⟩
        · exact hz _ hcontent

end Fs

namespace Fs

/-! Concrete states used as witnesses and counterexamples. -/

/-- A state holding a single empty file `a`. -/
def stateA : FSState := (do_mknod initState ['/', 'a']).1

/-- A state holding a single directory `a`. -/
def stateD : FSState := (do_mkdir initState ['/', 'a']).1

theorem stateA_reachable : Reachable stateA :=
  Reachable.mknod _ _ Reachable.init

/-- One create-file followed by one create-directory. -/
def fill1 (s : FSState) : FSState :=
  (do_mkdir (do_mknod s ['/', 'a']).1 ['/', 'd']).1

/-- `n` rounds of `fill1`. -/
def fillN : Nat → FSState → FSState
  | 0, s => s
  | n + 1, s => fillN n (fill1 s)

theorem fillN_reachable (n : Nat) {s : FSState} (h : Reachable s) :
    Reachable (fillN n s) := by
  induction n generalizing s with
  | zero => exact h
  | succ k ih =>
    exact ih (Reachable.mkdir _ _ (Reachable.mknod _ _ h))

theorem fill1_lens {s : FSState} (hd : s.dir_list.length < 256)
    (hf : s.files_list.length < 256) :
    (fill1 s).dir_list.length = s.dir_list.length + 1 ∧
    (fill1 s).files_list.length = s.files_list.length + 1 := by
  simp only [fill1, do_mkdir, do_mknod, add_file]
  rw [if_neg (by omega)]
  simp only [add_dir]
  rw [if_neg (show ¬_ ≥ 256 by omega)]
  simp

theorem fillN_lens (n : Nat) (s : FSState)
    (hd : s.dir_list.length + n ≤ 256) (hf : s.files_list.length + n ≤ 256) :
    (fillN n s).dir_list.length = s.dir_list.length + n ∧
    (fillN n s).files_list.length = s.files_list.length + n := by
  induction n generalizing s with
  | zero => simp [fillN]
  | succ k ih =>
    obtain ⟨h1, h2⟩ := @fill1_lens s (by omega) (by omega)
    obtain ⟨h3, h4⟩ := ih (fill1 s) (by omega) (by omega)
    refine ⟨?_, ?_⟩
    · rw [show fillN (k + 1) s = fillN k (fill1 s) from rfl, h3, h1]; omega
    · rw [show fillN (k + 1) s = fillN k (fill1 s) from rfl, h4, h2]; omega

/-- A reachable state whose two name registries are both full. -/
def fullState : FSState := fillN 256 initState

theorem fullState_reachable : Reachable fullState :=
  fillN_reachable 256 Reachable.init

theorem fullState_lens :
    fullState.dir_list.length = 256 ∧ fullState.files_list.length = 256 := by
  have h := fillN_lens 256 initState (by simp [initState]) (by simp [initState])
  simpa [fullState, initState] using h

end Fs

namespace Fs

/-! The claims. -/

/-- C2 (code behaviour at the failing input): on an empty file `a`,
`WriteFile("/a", "X", 5)` reports 1 byte written and does place the gap
zeros and the byte `X` (88) at offset 5 in the buffer, but the following
`ReadFile("/a", 10, 0)` returns zero bytes, not the six bytes the claim
states: the zero-filled gap starts at index 0, so the `strlen`-computed
content length is 0. -/
theorem C2_sparse_write_unreadable :
    (do_write stateA ['/', 'a'] [88] 5).2 = some 1 ∧
    ((do_write stateA ['/', 'a'] [88] 5).1.files_content.getD 0 zeroBuf) 5
      = 88 ∧
    do_read (do_write stateA ['/', 'a'] [88] 5).1 ['/', 'a'] 10 0
      = some [] := by
  decide

/-- C3 (code behaviour at the failing input): writing 1 byte at offset
300 to an existing empty file makes `do_write`'s zero-fill `memset`
store to byte index 299, outside the 256-byte content buffer, so the
claimed in-bounds property fails. -/
theorem C3_memset_out_of_bounds :
    299 ∈ do_write_accesses (strlen zeroBuf) 300 1 ∧ ¬ (299 < 256) := by
  decide

/-- C6: in every reachable state both name registries hold at most 256
entries, and a create on a full registry leaves its size at 256 (the
entry is silently dropped). -/
theorem C6_capacity (s : FSState) (p q : EntryName) :
    (Reachable s →
      s.dir_list.length ≤ 256 ∧ s.files_list.length ≤ 256) ∧
    (s.dir_list.length = 256 →
      (do_mkdir s p).1.dir_list.length = 256) ∧
    (s.files_list.length = 256 →
      (do_mknod s q).1.files_list.length = 256) := by
  refine ⟨fun h => ⟨(reachable_good h).1, (reachable_good h).2.1⟩, ?_, ?_⟩
  · intro h
    simp only [do_mkdir, add_dir]
    rw [if_pos (by omega)]
    exact h
  · intro h
    simp only [do_mknod, add_file]
    rw [if_pos (by omega)]
    exact h

/-- C6 witness: a concrete reachable state with both registries full. -/
theorem C6_capacity_witness :
    (fullState.dir_list.length ≤ 256 ∧ fullState.files_list.length ≤ 256) ∧
    (do_mkdir fullState ['/', 'x']).1.dir_list.length = 256 ∧
    (do_mknod fullState ['/', 'x']).1.files_list.length = 256 :=
  ⟨(C6_capacity fullState ['/', 'x'] ['/', 'x']).1 fullState_reachable,
   (C6_capacity fullState ['/', 'x'] ['/', 'x']).2.1 fullState_lens.1,
   (C6_capacity fullState ['/', 'x'] ['/', 'x']).2.2 fullState_lens.2⟩

/-- C7: `do_mkdir` and `do_mknod` return 0 (success) on every path and
every state, including when the new entry was silently dropped at
capacity. -/
theorem C7_creation_succeeds (s : FSState) (p q : EntryName) :
    (do_mkdir s p).2 = 0 ∧ (do_mknod s q).2 = 0 :=
  ⟨rfl, rfl⟩

/-- C9: in every reachable state the file-name and file-content
registries have the same number of entries, and a create-file on a full
registry changes nothing at all (so no content slot is created either). -/
theorem C9_positional_coupling (s : FSState) (p : EntryName)
    (h : Reachable s) :
    s.files_list.length = s.files_content.length ∧
    (s.files_list.length ≥ 256 → (do_mknod s p).1 = s) := by
  refine ⟨(reachable_good h).2.2.1, fun hc => ?_⟩
  simp only [do_mknod, add_file]
  rw [if_pos hc]

/-- C9 witness: the coupling at the full reachable state, where the
silent drop occurs. -/
theorem C9_positional_coupling_witness :
    fullState.files_list.length = fullState.files_content.length ∧
    (do_mknod fullState ['/', 'x']).1 = fullState :=
  ⟨(C9_positional_coupling fullState ['/', 'x'] fullState_reachable).1,
   (C9_positional_coupling fullState ['/', 'x'] fullState_reachable).2
     fullState_lens.2.ge⟩

/-- C10: the listing always starts with the pseudo-entries "." and ".."
in that order; exactly for the root path it continues with every
directory name and then every file name in insertion order, and for any
other path it is just the two pseudo-entries. -/
theorem C10_readdir (s : FSState) (path : EntryName) :
    do_readdir s path =
      [['.'], ['.', '.']] ++
        (if path = ['/'] then s.dir_list ++ s.files_list else []) := by
  by_cases h : path = ['/']
  · simp only [do_readdir, if_pos h, foldl_push, List.append_assoc]
  · simp [do_readdir, if_neg h]

end Fs

namespace Fs

/-- C8 counterexample: in a state whose directory registry holds `a`,
creating file `/a` and asking for its attributes reports directory
attributes (`do_getattr` checks `is_dir` before `is_file`), not
regular-file attributes with size 0. -/
theorem C8_counterexample :
    do_getattr (do_mknod stateD ['/', 'a']).1 ['/', 'a'] ≠
      some { kind := .regular, perm := 0o644, nlink := 1, size := 0 } := by
  decide

/-- C8 (amended): after `CreateFile("/"+name)` in a reachable state,
`GetAttributes("/"+name)` reports regular-file attributes with one link
and size 0, provided the name is nonempty, at most 255 characters, not
the name of an existing directory or file, and the file registry is
below capacity. -/
theorem C8_create_getattr (s : FSState) (name : EntryName)
    (hs : Reachable s) (hne : name ≠ []) (hlen : name.length ≤ 255)
    (hdir : find_name s.dir_list name = none)
    (hfile : find_name s.files_list name = none)
    (hcap : s.files_list.length < 256) :
    do_getattr (do_mknod s ('/' :: name)).1 ('/' :: name) =
      some { kind := .regular, perm := 0o644, nlink := 1, size := 0 } := by
  have htake : name.take 255 = name := List.take_of_length_le hlen
  have hstate : (do_mknod s ('/' :: name)).1 =
      { s with files_list := s.files_list ++ [name],
               files_content := s.files_content ++ [zeroBuf] } := by
    simp only [do_mknod, add_file, List.drop_one, List.tail_cons]
    rw [if_neg (by omega), htake]
  rw [hstate]
  have hroot : ¬ (('/' :: name) = ['/']) := by
    simp only [List.cons.injEq, true_and]
    exact hne
  have hfind : find_name (s.files_list ++ [name]) name =
      some s.files_list.length := find_name_append_self hfile
  have hisdir : is_dir
      { s with files_list := s.files_list ++ [name],
               files_content := s.files_content ++ [zeroBuf] }
      ('/' :: name) = false := by
    simp only [is_dir, List.drop_one, List.tail_cons]
    rw [hdir]
    rfl
  have hisfile : is_file
      { s with files_list := s.files_list ++ [name],
               files_content := s.files_content ++ [zeroBuf] }
      ('/' :: name) = true := by
    simp only [is_file, List.drop_one, List.tail_cons]
    rw [hfind]
    rfl
  have hidx : get_file_index
      { s with files_list := s.files_list ++ [name],
               files_content := s.files_content ++ [zeroBuf] }
      ('/' :: name) = some s.files_list.length := by
    simp only [get_file_index, List.drop_one, List.tail_cons]
    exact hfind
  simp only [do_getattr]
  rw [if_neg (by
    intro hor
    rcases hor with hor | hor
    · exact hroot hor
    · rw [hisdir] at hor
      cases hor)]
  rw [if_pos hisfile, hidx]
  have hflen : s.files_list.length = s.files_content.length :=
    (reachable_good hs).2.2.1
  have hgetD : (s.files_content ++ [zeroBuf]).getD s.files_list.length
      zeroBuf = zeroBuf := by
    rw [hflen]
    exact getD_append_length _ _ _
  simp only [hgetD]
  have hz : strlen zeroBuf = 0 := by decide
  rw [hz]

/-- C8 witness: creating `a` in the empty filesystem. -/
theorem C8_create_getattr_witness :
    (['a'] : EntryName) ≠ [] ∧
    do_getattr (do_mknod initState ['/', 'a']).1 ['/', 'a'] =
      some { kind := .regular, perm := 0o644, nlink := 1, size := 0 } :=
  ⟨by decide,
   C8_create_getattr initState ['a'] Reachable.init (by decide) (by decide)
     rfl rfl (by decide)⟩

end Fs

namespace Fs

/-- C5: on an existing file, a read at or past the content length
returns zero bytes (success, not `NotFound`); otherwise it returns
exactly `min(size, content_length - offset)` bytes of the content
starting at `offset`, and never touches bytes at or past the content
length. -/
theorem C5_read_semantics (s : FSState) (path : EntryName)
    (size offset file_idx : Nat)
    (h : get_file_index s path = some file_idx) :
    (offset ≥ strlen (s.files_content.getD file_idx zeroBuf) →
      do_read s path size offset = some []) ∧
    (offset < strlen (s.files_content.getD file_idx zeroBuf) →
      do_read s path size offset = some ((List.range
          (min size (strlen (s.files_content.getD file_idx zeroBuf)
            - offset))).map
        (fun i => s.files_content.getD file_idx zeroBuf (offset + i))) ∧
      offset + min size (strlen (s.files_content.getD file_idx zeroBuf)
        - offset) ≤ strlen (s.files_content.getD file_idx zeroBuf)) := by
  constructor
  · intro hge
    simp only [do_read, h]
    rw [if_pos hge]
  · intro hlt
    refine ⟨?_, by omega⟩
    simp only [do_read, h]
    rw [if_neg (by omega)]
    have hbtr : (if strlen (s.files_content.getD file_idx zeroBuf)
          - offset > size then size
        else strlen (s.files_content.getD file_idx zeroBuf) - offset) =
        min size (strlen (s.files_content.getD file_idx zeroBuf)
          - offset) := by
      split <;> omega
    rw [hbtr]

/-- A file `a` with content `hello` (5 bytes, all nonzero). -/
def stateB : FSState :=
  (do_write stateA ['/', 'a'] [104, 101, 108, 108, 111] 0).1

/-- C5 witness: reading `hello` at offset 5 gives end-of-data, reading
2 bytes at offset 1 gives the 2 content bytes there. -/
theorem C5_read_semantics_witness :
    do_read stateB ['/', 'a'] 10 5 = some [] ∧
    (do_read stateB ['/', 'a'] 2 1 = some ((List.range
          (min 2 (strlen (stateB.files_content.getD 0 zeroBuf) - 1))).map
        (fun i => stateB.files_content.getD 0 zeroBuf (1 + i))) ∧
      1 + min 2 (strlen (stateB.files_content.getD 0 zeroBuf) - 1) ≤
        strlen (stateB.files_content.getD 0 zeroBuf)) := by
  have h5 : strlen (stateB.files_content.getD 0 zeroBuf) = 5 := by decide
  constructor
  · exact (C5_read_semantics stateB ['/', 'a'] 10 5 0 (by decide)).1 h5.le
  · exact (C5_read_semantics stateB ['/', 'a'] 2 1 0 (by decide)).2
      (by rw [h5]; decide)

end Fs

namespace Fs

/-- C4: on an existing file in a reachable state, `do_write` reports
`max(min(offset + len(data), 255) - offset, 0)` bytes written (0 when the
capped write length is not past the offset, e.g. `offset ≥ 255`), every
stored content length stays at most 255 after the write, and a 300-byte
write at offset 0 reports exactly 255 bytes. -/
theorem C4_write_result (s : FSState) (path : EntryName) (data : List Nat)
    (offset file_idx : Nat) (hs : Reachable s)
    (h : get_file_index s path = some file_idx) :
    (do_write s path data offset).2 =
      some (min (offset + data.length) 255 - offset) ∧
    (∀ b ∈ (do_write s path data offset).1.files_content,
      strlen b ≤ 255) ∧
    (data.length = 300 → offset = 0 →
      (do_write s path data offset).2 = some 255) := by
  have hret : (do_write s path data offset).2 =
      some (min (offset + data.length) 255 - offset) := by
    simp only [do_write, h]
    split
    · rfl
    · next hpos =>
      have h0 : min (offset + data.length) 255 - offset = 0 := by omega
      rw [h0]
  refine ⟨hret, ?_, fun h300 h0 => ?_⟩
  · intro b hb
    have hr : Reachable (do_write s path data offset).1 :=
      Reachable.write _ _ _ _ hs
    exact strlen_le ((reachable_good hr).2.2.2 b hb)
  · rw [hret, h300, h0]
    decide

end Fs

namespace Fs

/-- C4 witness: a 300-byte write at offset 0 on the one-file state
reports exactly 255 bytes written. -/
theorem C4_write_result_witness :
    (do_write stateA ['/', 'a'] (List.replicate 300 7) 0).2 =
      some (min (0 + (List.replicate 300 7).length) 255 - 0) ∧
    (∀ b ∈ (do_write stateA ['/', 'a']
        (List.replicate 300 7) 0).1.files_content, strlen b ≤ 255) ∧
    (do_write stateA ['/', 'a'] (List.replicate 300 7) 0).2 = some 255 := by
  have h := C4_write_result stateA ['/', 'a'] (List.replicate 300 7) 0 0
    stateA_reachable (by decide)
  exact ⟨h.1, h.2.1, h.2.2 (List.length_replicate 300 7) rfl⟩

end Fs

namespace Fs

/-- `do_write` never changes the file-name registry. -/
theorem do_write_files_list (s : FSState) (path : EntryName)
    (data : List Nat) (off : Nat) :
    (do_write s path data off).1.files_list = s.files_list := by
  rcases h : get_file_index s path with _ | i
  · simp [do_write, h]
  · simp only [do_write, h]
    split <;> rfl

/-- Path resolution is unchanged across a write. -/
theorem get_file_index_do_write (s : FSState) (path path' : EntryName)
    (data : List Nat) (off : Nat) :
    get_file_index (do_write s path data off).1 path' =
      get_file_index s path' := by
  simp only [get_file_index, do_write_files_list]

/-- A zero-size read on an existing file returns zero bytes. -/
theorem read_size_zero (s : FSState) (path : EntryName) (off file_idx : Nat)
    (h : get_file_index s path = some file_idx) :
    do_read s path 0 off = some [] := by
  simp only [do_read, h]
  split
  · rfl
  · rw [if_pos (by omega)]
    rfl

/-- Shape of `do_write` for a nonempty, in-cap write at offset 0: no gap
to zero-fill, the data is copied to the front and terminated, and its
length is reported. -/
theorem do_write_zero_offset (s : FSState) (path : EntryName)
    (data : List Nat) (file_idx : Nat)
    (h : get_file_index s path = some file_idx)
    (hpos : 0 < data.length) (hle : data.length ≤ 255) :
    do_write s path data 0 =
      ({ s with files_content := (s.files_content.set file_idx
          (setByte (memcpy_at (s.files_content.getD file_idx zeroBuf) 0
            data data.length) data.length 0)) },
       some data.length) := by
  have hmin : min (0 + data.length) 255 = data.length := by omega
  simp only [do_write, h, hmin, Nat.sub_zero]
  rw [if_neg (show ¬ (0 > strlen (s.files_content.getD file_idx zeroBuf))
    by omega)]
  rw [if_pos hpos]

/-- Bytes below the written length read back from the data. -/
theorem write0_buffer_at_lt {b : Buffer} {data : List Nat} {j : Nat}
    (hj : j < data.length) :
    setByte (memcpy_at b 0 data data.length) data.length 0 j =
      data.getD j 0 := by
  simp only [setByte, memcpy_at]
  rw [if_neg (by omega), if_pos ⟨by omega, by omega⟩, Nat.sub_zero]

/-- The terminator is placed at the written length. -/
theorem write0_buffer_at_len {b : Buffer} {data : List Nat} :
    setByte (memcpy_at b 0 data data.length) data.length 0
      data.length = 0 := by
  simp [setByte]

/-- After writing zero-free data at offset 0, `strlen` is the data
length. -/
theorem write0_strlen {b : Buffer} {data : List Nat}
    (hle : data.length ≤ 255) (hnz : ∀ x ∈ data, x ≠ 0) :
    strlen (setByte (memcpy_at b 0 data data.length) data.length 0) =
      data.length := by
  apply strlen_eq hle write0_buffer_at_len
  intro j hj
  rw [write0_buffer_at_lt hj, getD_of_lt _ _ _ hj]
  exact hnz _ (List.getElem_mem hj)

/-- C1 counterexample: the claim fails for data containing a zero byte.
On an empty file `a`, writing the 1-byte string `[0]` at offset 0 and
reading 1 byte back returns the empty byte string, not `[0]`: the
`strlen`-derived content length stops at the first zero byte. -/
theorem C1_counterexample :
    do_read (do_write stateA ['/', 'a'] [0] 0).1 ['/', 'a'] 1 0 ≠
      some [0] := by
  decide

/-- C1 (amended): for every existing file path in a reachable state and
every byte string `data` with `len(data) ≤ 255` none of whose bytes is
zero, `WriteFile(path, data, 0)` followed by
`ReadFile(path, len(data), 0)` returns exactly `data`. -/
theorem C1_roundtrip (s : FSState) (path : EntryName) (data : List Nat)
    (file_idx : Nat) (hs : Reachable s)
    (h : get_file_index s path = some file_idx)
    (hlen : data.length ≤ 255) (hnz : ∀ x ∈ data, x ≠ 0) :
    do_read (do_write s path data 0).1 path data.length 0 = some data := by
  have hfl : file_idx < s.files_list.length := find_name_lt h
  have hfc : file_idx < s.files_content.length := by
    rw [← (reachable_good hs).2.2.1]
    exact hfl
  by_cases hn : data.length = 0
  · have hdata : data = [] := List.eq_nil_of_length_eq_zero hn
    subst hdata
    exact read_size_zero _ _ _ file_idx
      (by rw [get_file_index_do_write]; exact h)
  · have hw := do_write_zero_offset s path data file_idx h
      (Nat.pos_of_ne_zero hn) hlen
    rw [hw]
    have h' : get_file_index
        { s with files_content := (s.files_content.set file_idx
            (setByte (memcpy_at (s.files_content.getD file_idx zeroBuf) 0
              data data.length) data.length 0)) } path = some file_idx := h
    simp only [do_read, h']
    rw [getD_set_self _ _ _ _ hfc]
    rw [write0_strlen hlen hnz]
    rw [if_neg (show ¬ (0 ≥ data.length) by omega)]
    simp only [Nat.sub_zero]
    rw [if_neg (by omega)]
    congr 1
    have hpt : ∀ i ∈ List.range data.length,
        setByte (memcpy_at (s.files_content.getD file_idx zeroBuf) 0
          data data.length) data.length 0 (0 + i) = data.getD i 0 := by
      intro i hi
      rw [List.mem_range] at hi
      rw [Nat.zero_add]
      exact write0_buffer_at_lt hi
    rw [List.map_congr_left hpt, map_getD_range]

/-- C1 witness: round trip of `hello` through the one-file state. -/
theorem C1_roundtrip_witness :
    ([104, 101, 108, 108, 111] : List Nat).length ≤ 255 ∧
    do_read (do_write stateA ['/', 'a'] [104, 101, 108, 108, 111] 0).1
      ['/', 'a'] ([104, 101, 108, 108, 111] : List Nat).length 0 =
      some [104, 101, 108, 108, 111] :=
  ⟨by decide,
   C1_roundtrip stateA ['/', 'a'] [104, 101, 108, 108, 111] 0
     stateA_reachable (by decide) (by decide) (by decide)⟩

end Fs
